import Mathlib

/-!
Verification of the `Base` persistence model
(`0x01-Basic_authentication/models/base.py`)

A shallow embedding of the Python module `models/base.py`: a base class
giving every entity type a unique id, creation/update timestamps, JSON
serialization (`to_json`), and whole-bucket file persistence
(`save_to_file` / `load_from_file`) over a process-wide registry `DATA`.

Modelling conventions:
* Python strings are `List Char`; attribute and class names are `String`.
* `datetime` objects are records of calendar fields; `datetime.utcnow()`
  is an explicit `now : DateTime` parameter.
* `strftime`/`strptime` with the fixed format `"%Y-%m-%dT%H:%M:%S"` are
  implemented at character level on the canonical zero-padded rendering
  (the lenient single-digit parses Python's `strptime` also accepts are
  not modelled; no claim depends on them).
* The registry `DATA`, and the file system, are association lists inside
  an explicit `State`; Python dict insertion-order semantics are kept.
* Operations that can raise (`KeyError` on a missing registry bucket,
  `ValueError` from `strptime`) return `Option`: `none` models the raise.
* `str(uuid.uuid4())` is `uuid4str r` for an external 128-bit random
  source `r`.
-/

namespace BaseModel

/-- Python `datetime` calendar fields (the only parts `base.py` touches). -/
structure DateTime where
  year : Nat
  month : Nat
  day : Nat
  hour : Nat
  minute : Nat
  second : Nat
  microsecond : Nat
deriving DecidableEq, Repr

/-- Days in a month, with Gregorian leap years (Python `datetime` range checks). -/
def daysInMonth (y m : Nat) : Nat :=
  if m = 2 then
    if y % 4 = 0 && (y % 100 ≠ 0 || y % 400 = 0) then 29 else 28
  else if m = 4 || m = 6 || m = 9 || m = 11 then 30
  else 31

/-- The range invariant Python's `datetime` constructor enforces. -/
def DateTime.valid (d : DateTime) : Bool :=
  1 ≤ d.year && d.year ≤ 9999 &&
  1 ≤ d.month && d.month ≤ 12 &&
  1 ≤ d.day && d.day ≤ daysInMonth d.year d.month &&
  d.hour ≤ 23 && d.minute ≤ 59 && d.second ≤ 59 &&
  d.microsecond ≤ 999999

/-- Truncation to the precision of `TIMESTAMP_FORMAT` (whole seconds). -/
def DateTime.trunc (d : DateTime) : DateTime :=
  { d with microsecond := 0 }

/-- Decimal digit character. -/
def digitChar (n : Nat) : Char := Char.ofNat (48 + n)

/-- Numeric value of a decimal digit character, `none` if not a digit. -/
def digitVal (c : Char) : Option Nat :=
  if 48 ≤ c.toNat ∧ c.toNat ≤ 57 then some (c.toNat - 48) else none

/-- Zero-padded two-digit rendering (`%02d` as used by `%m`, `%d`, `%H`, `%M`, `%S`). -/
def pad2 (n : Nat) : List Char := [digitChar (n / 10 % 10), digitChar (n % 10)]

/-- Zero-padded four-digit rendering (`%Y` for years up to 9999). -/
def pad4 (n : Nat) : List Char :=
  [digitChar (n / 1000 % 10), digitChar (n / 100 % 10),
   digitChar (n / 10 % 10), digitChar (n % 10)]

/-- Rendering `d.strftime(TIMESTAMP_FORMAT)` with `TIMESTAMP_FORMAT = "%Y-%m-%dT%H:%M:%S"`:
the microsecond field is simply not rendered. -/
def strftime (d : DateTime) : List Char :=
  pad4 d.year ++ '-' :: (pad2 d.month ++ '-' :: (pad2 d.day ++
    'T' :: (pad2 d.hour ++ ':' :: (pad2 d.minute ++ ':' :: pad2 d.second))))

/-- Parse two digits. -/
def parse2 (c1 c2 : Char) : Option Nat := do
  let a ← digitVal c1
  let b ← digitVal c2
  return 10 * a + b

/-- Parse four digits. -/
def parse4 (c1 c2 c3 c4 : Char) : Option Nat := do
  let a ← digitVal c1
  let b ← digitVal c2
  let c ← digitVal c3
  let d ← digitVal c4
  return 1000 * a + 100 * b + 10 * c + d

/-- Parsing `datetime.strptime(s, TIMESTAMP_FORMAT)`: parses the canonical
zero-padded rendering, validates ranges exactly as the `datetime`
constructor does, and yields microsecond `0`.  A string of any other
shape (Python would raise `ValueError`) gives `none`. -/
def strptime (s : List Char) : Option DateTime :=
  match s with
  | [y1, y2, y3, y4, a1, m1, m2, a2, d1, d2, a3, h1, h2, a4, i1, i2, a5, s1, s2] =>
    if a1 = '-' ∧ a2 = '-' ∧ a3 = 'T' ∧ a4 = ':' ∧ a5 = ':' then do
      let y ← parse4 y1 y2 y3 y4
      let mo ← parse2 m1 m2
      let dy ← parse2 d1 d2
      let h ← parse2 h1 h2
      let mi ← parse2 i1 i2
      let se ← parse2 s1 s2
      let d : DateTime := ⟨y, mo, dy, h, mi, se, 0⟩
      if d.valid then some d else none
    else none
  | _ => none

theorem daysInMonth_le (y m : Nat) : daysInMonth y m ≤ 31 := by
  unfold daysInMonth
  split_ifs <;> omega

theorem digitVal_digitChar (k : Nat) (h : k < 10) :
    digitVal (digitChar k) = some k := by
  interval_cases k <;> rfl

theorem parse2_pad2 (n : Nat) (h : n < 100) :
    parse2 (digitChar (n / 10 % 10)) (digitChar (n % 10)) = some n := by
  unfold parse2
  rw [digitVal_digitChar _ (Nat.mod_lt _ (by omega)),
      digitVal_digitChar _ (Nat.mod_lt _ (by omega))]
  simp only [Option.bind_eq_bind, Option.some_bind, Option.pure_def,
    Option.some.injEq]
  omega

theorem parse4_pad4 (n : Nat) (h : n < 10000) :
    parse4 (digitChar (n / 1000 % 10)) (digitChar (n / 100 % 10))
      (digitChar (n / 10 % 10)) (digitChar (n % 10)) = some n := by
  unfold parse4
  rw [digitVal_digitChar _ (Nat.mod_lt _ (by omega)),
      digitVal_digitChar _ (Nat.mod_lt _ (by omega)),
      digitVal_digitChar _ (Nat.mod_lt _ (by omega)),
      digitVal_digitChar _ (Nat.mod_lt _ (by omega))]
  simp only [Option.bind_eq_bind, Option.some_bind, Option.pure_def,
    Option.some.injEq]
  omega

/-- Round trip: formatting a valid datetime and parsing it back drops
exactly the microseconds. -/
theorem strptime_strftime (d : DateTime) (h : d.valid = true) :
    strptime (strftime d) = some d.trunc := by
  have hv := h
  unfold DateTime.valid at hv
  simp only [Bool.and_eq_true, decide_eq_true_eq] at hv
  obtain ⟨⟨⟨⟨⟨⟨⟨⟨⟨h1, h2⟩, h3⟩, h4⟩, h5⟩, h6⟩, h7⟩, h8⟩, h9⟩, h10⟩
    := hv
  show strptime
    [digitChar (d.year / 1000 % 10), digitChar (d.year / 100 % 10),
     digitChar (d.year / 10 % 10), digitChar (d.year % 10), '-',
     digitChar (d.month / 10 % 10), digitChar (d.month % 10), '-',
     digitChar (d.day / 10 % 10), digitChar (d.day % 10), 'T',
     digitChar (d.hour / 10 % 10), digitChar (d.hour % 10), ':',
     digitChar (d.minute / 10 % 10), digitChar (d.minute % 10), ':',
     digitChar (d.second / 10 % 10), digitChar (d.second % 10)]
    = some d.trunc
  simp only [strptime]
  rw [if_pos (by exact ⟨trivial, trivial, trivial, trivial, trivial⟩)]
  rw [parse4_pad4 d.year (by omega),
      parse2_pad2 d.month (by omega),
      parse2_pad2 d.day (by have := daysInMonth_le d.year d.month; omega),
      parse2_pad2 d.hour (by omega), parse2_pad2 d.minute (by omega),
      parse2_pad2 d.second (by omega)]
  simp only [Option.bind_eq_bind, Option.some_bind]
  rw [if_pos]
  · rfl
  · unfold DateTime.valid
    simp only [Bool.and_eq_true, decide_eq_true_eq]
    refine ⟨⟨⟨⟨⟨⟨⟨⟨⟨h1, h2⟩, h3⟩, h4⟩, h5⟩, h6⟩, h7⟩, h8⟩, h9⟩, by omega⟩

/-- Any `datetime` produced by `strptime` is range-valid and has
microsecond `0` (`%f` is not in the format). -/
theorem strptime_some (s : List Char) (d : DateTime)
    (h : strptime s = some d) : d.valid = true ∧ d.microsecond = 0 := by
  unfold strptime at h
  split at h
  case h_2 => exact absurd h (by simp)
  case h_1 =>
    split at h
    case isFalse => exact absurd h (by simp)
    case isTrue =>
      simp only [Option.bind_eq_bind, Option.bind_eq_some, Option.pure_def,
        Option.some.injEq] at h
      obtain ⟨y, _, mo, _, dy, _, hh, _, mi, _, se, _, h⟩ := h
      split at h
      · cases h
        exact And.intro (by assumption) rfl
      · exact absurd h (by simp)

/-! ## Python values

The values `base.py` stores in attributes, dict entries and JSON files.
`vNone` is Python's `None` (the `getattr` default in `search`). -/

inductive Value where
  | vStr : List Char → Value
  | vDT : DateTime → Value
  | vInt : Int → Value
  | vBool : Bool → Value
  | vNone : Value
deriving DecidableEq, Repr

/-- Python `==` on the modelled values (no cross-type coercions arise
between these constructors in this code base apart from bool/int, which
`base.py` never compares). -/
def pyEq (a b : Value) : Bool := a = b

/-! ## Dictionaries as insertion-ordered association lists

Python dicts preserve insertion order; assignment to an existing key
updates in place, assignment to a new key appends. -/

section AList

variable {κ : Type} {α : Type} [DecidableEq κ]

/-- Dict lookup `d.get(k)` / `d[k]`. -/
def alGet : List (κ × α) → κ → Option α
  | [], _ => none
  | (k', v) :: t, k => if k' = k then some v else alGet t k

/-- Dict assignment `d[k] = v`: update in place, or append if the key is new. -/
def alSet : List (κ × α) → κ → α → List (κ × α)
  | [], k, v => [(k, v)]
  | (k', v') :: t, k, v =>
      if k' = k then (k, v) :: t else (k', v') :: alSet t k v

/-- Dict deletion `del d[k]`. -/
def alErase : List (κ × α) → κ → List (κ × α)
  | [], _ => []
  | (k', v') :: t, k => if k' = k then t else (k', v') :: alErase t k

theorem alGet_alSet_self (l : List (κ × α)) (k : κ) (v : α) :
    alGet (alSet l k v) k = some v := by
  induction l with
  | nil => simp [alGet, alSet]
  | cons h t ih =>
    obtain ⟨k', v'⟩ := h
    by_cases hk : k' = k <;> simp [alGet, alSet, hk, ih]

theorem alGet_alSet_ne (l : List (κ × α)) (k k' : κ) (v : α)
    (h : k' ≠ k) : alGet (alSet l k v) k' = alGet l k' := by
  induction l with
  | nil =>
    simp only [alSet, alGet]
    rw [if_neg (fun h' => h h'.symm)]
  | cons hd t ih =>
    obtain ⟨k0, v0⟩ := hd
    by_cases hk : k0 = k
    · subst hk
      simp only [alSet, if_pos rfl, alGet]
      rw [if_neg (fun h' : k0 = k' => h h'.symm),
          if_neg (fun h' : k0 = k' => h h'.symm)]
    · simp only [alSet, if_neg hk, alGet]
      by_cases hk' : k0 = k'
      · rw [if_pos hk', if_pos hk']
      · rw [if_neg hk', if_neg hk', ih]

theorem alGet_alErase_ne (l : List (κ × α)) (k k' : κ)
    (h : k' ≠ k) : alGet (alErase l k) k' = alGet l k' := by
  induction l with
  | nil => rfl
  | cons hd t ih =>
    obtain ⟨k0, v0⟩ := hd
    by_cases hk : k0 = k
    · subst hk
      rw [show alErase ((k0, v0) :: t) k0 = t from by simp [alErase]]
      simp only [alGet]
      rw [if_neg (fun h' : k0 = k' => h h'.symm)]
    · simp only [alErase, if_neg hk, alGet]
      by_cases hk' : k0 = k'
      · rw [if_pos hk', if_pos hk']
      · rw [if_neg hk', if_neg hk', ih]

/-- When the key is fresh, dict assignment is an append. -/
theorem alSet_fresh (l : List (κ × α)) (k : κ) (v : α)
    (h : alGet l k = none) : alSet l k v = l ++ [(k, v)] := by
  induction l with
  | nil => simp [alSet]
  | cons hd t ih =>
    obtain ⟨k0, v0⟩ := hd
    by_cases hk : k0 = k
    · simp [alGet, hk] at h
    · simp only [alGet, if_neg hk] at h
      simp [alSet, hk, ih h]

/-- Membership in an erased dict. -/
theorem mem_alErase (l : List (κ × α)) (k : κ) (p : κ × α)
    (h : p ∈ alErase l k) : p ∈ l := by
  induction l with
  | nil => simp [alErase] at h
  | cons hd t ih =>
    obtain ⟨k0, v0⟩ := hd
    simp only [alErase] at h
    split at h
    · exact List.mem_cons_of_mem _ h
    · rcases List.mem_cons.mp h with h' | h'
      · exact h' ▸ List.mem_cons_self _ _
      · exact List.mem_cons_of_mem _ (ih h')

/-- Membership in an updated dict. -/
theorem mem_alSet (l : List (κ × α)) (k : κ) (v : α) (p : κ × α)
    (h : p ∈ alSet l k v) : p ∈ l ∨ p = (k, v) := by
  induction l with
  | nil => simp [alSet] at h; exact Or.inr h
  | cons hd t ih =>
    obtain ⟨k0, v0⟩ := hd
    simp only [alSet] at h
    split at h
    · rcases List.mem_cons.mp h with h' | h'
      · exact Or.inr h'
      · exact Or.inl (List.mem_cons_of_mem _ h')
    · rcases List.mem_cons.mp h with h' | h'
      · exact Or.inl (h' ▸ List.mem_cons_self _ _)
      · rcases ih h' with h'' | h''
        · exact Or.inl (List.mem_cons_of_mem _ h'')
        · exact Or.inr h''

end AList

/-! ## `str(uuid.uuid4())` -/

/-- Lowercase hex digit character. -/
def hexChar (n : Nat) : Char :=
  if n < 10 then Char.ofNat (48 + n) else Char.ofNat (87 + n)

/-- Value of `uuid.uuid4().int`: 128 random bits with the RFC 4122 variant bits
(bits 62–63 forced to `10`) and the version nibble (bits 76–79 forced
to `0100`) set, as done by `uuid.UUID(bytes=..., version=4)`. -/
def uuid4int (r : Nat) : Nat :=
  let mask := 2 ^ 128 - 1
  let x := r % 2 ^ 128
  let x := (x &&& (mask ^^^ (0xc000 <<< 48))) ||| (0x8000 <<< 48)
  let x := (x &&& (mask ^^^ (0xf000 <<< 64))) ||| (4 <<< 76)
  x

/-- The `i`-th (0-based, most significant first) of the 32 hex digits of
`'%032x' % x`. -/
def uuidHex (x i : Nat) : Char := hexChar (x / 16 ^ (31 - i) % 16)

/-- String form `str(uuid.uuid4())`: 32 lowercase hex digits in groups 8-4-4-4-12. -/
def uuid4str (r : Nat) : List Char :=
  [uuidHex (uuid4int r) 0, uuidHex (uuid4int r) 1, uuidHex (uuid4int r) 2,
   uuidHex (uuid4int r) 3, uuidHex (uuid4int r) 4, uuidHex (uuid4int r) 5,
   uuidHex (uuid4int r) 6, uuidHex (uuid4int r) 7, '-',
   uuidHex (uuid4int r) 8, uuidHex (uuid4int r) 9, uuidHex (uuid4int r) 10,
   uuidHex (uuid4int r) 11, '-',
   uuidHex (uuid4int r) 12, uuidHex (uuid4int r) 13, uuidHex (uuid4int r) 14,
   uuidHex (uuid4int r) 15, '-',
   uuidHex (uuid4int r) 16, uuidHex (uuid4int r) 17, uuidHex (uuid4int r) 18,
   uuidHex (uuid4int r) 19, '-',
   uuidHex (uuid4int r) 20, uuidHex (uuid4int r) 21, uuidHex (uuid4int r) 22,
   uuidHex (uuid4int r) 23, uuidHex (uuid4int r) 24, uuidHex (uuid4int r) 25,
   uuidHex (uuid4int r) 26, uuidHex (uuid4int r) 27, uuidHex (uuid4int r) 28,
   uuidHex (uuid4int r) 29, uuidHex (uuid4int r) 30, uuidHex (uuid4int r) 31]

/-- Lowercase hex digit test. -/
def isHexChar (c : Char) : Bool :=
  (48 ≤ c.toNat && c.toNat ≤ 57) || (97 ≤ c.toNat && c.toNat ≤ 102)

/-- A 36-character string in canonical UUID shape: five all-hex groups of
lengths 8, 4, 4, 4, 12 joined by dashes. -/
def UuidFormat (s : List Char) : Prop :=
  ∃ g1 g2 g3 g4 g5 : List Char,
    g1.length = 8 ∧ g2.length = 4 ∧ g3.length = 4 ∧ g4.length = 4 ∧
    g5.length = 12 ∧
    (g1 ++ g2 ++ g3 ++ g4 ++ g5).all isHexChar = true ∧
    s = g1 ++ '-' :: (g2 ++ '-' :: (g3 ++ '-' :: (g4 ++ '-' :: g5)))

/-! ## The entity model

`base.py` only ever manipulates `self.__dict__`, which for an object of
a concrete `Base` subclass holds `id`, `created_at`, `updated_at` (set
by `Base.__init__`, in that order) followed by whatever additional
attributes the subclass set.  `extra` models those additional
attributes; `Base` itself leaves it empty. -/

/-- A Python dict of attribute/field names to values (kwargs, `__dict__`
snapshots, JSON objects). -/
abbrev FieldMap := List (String × Value)

structure Entity where
  cls : String
  id : List Char
  created_at : DateTime
  updated_at : DateTime
  extra : FieldMap
deriving DecidableEq, Repr

/-- Snapshot of `self.__dict__` in insertion order. -/
def Entity.dict (e : Entity) : FieldMap :=
  ("id", .vStr e.id) :: ("created_at", .vDT e.created_at)
    :: ("updated_at", .vDT e.updated_at) :: e.extra

/-- Attribute lookup `getattr(e, k, None)` without the default. -/
def Entity.getattr (e : Entity) (k : String) : Option Value :=
  alGet e.dict k

/-- Equality `Base.__eq__`: same concrete type and same id. -/
def Entity.eq (a b : Entity) : Bool :=
  decide (a.cls = b.cls ∧ a.id = b.id)

/-- The `strftime` conversion `to_json` applies to `datetime` values. -/
def renderValue : Value → Value
  | .vDT d => .vStr (strftime d)
  | v => v

/-- Test `key.startswith('_')`: the attribute name's first character is an
underscore. -/
def startsWithUnderscore (k : String) : Bool :=
  match k.data with
  | '_' :: _ => true
  | _ => false

/-- Serialization `Base.to_json(for_serialization)`: walk `__dict__`, skip
underscore-prefixed keys unless serializing, render datetimes as format
strings.  (The loop inserts into a fresh dict; as `__dict__` keys are
distinct this is filter-then-map.) -/
def Entity.to_json (e : Entity) (for_serialization : Bool) : FieldMap :=
  (e.dict.filter (fun kv => for_serialization || !(startsWithUnderscore kv.1))).map
    (fun kv => (kv.1, renderValue kv.2))

/-! ## Registry and file system state -/

/-- One registry bucket: `DATA[s_class]`, id ↦ entity. -/
abbrev Bucket := List (List Char × Entity)

/-- The process-wide registry `DATA`: class name ↦ bucket. -/
abbrev Data := List (String × Bucket)

/-- A parsed backing file: id ↦ JSON object.  (`json.dump`/`json.load`
round-trips the string/int/bool/null values `to_json(True)` emits, so
the file is modelled in parsed form.) -/
abbrev JsonFile := List (List Char × FieldMap)

structure State where
  data : Data
  files : List (String × JsonFile)
deriving Repr

/-- File name `".db_" + s_class + ".json"`. -/
def dbFile (cls : String) : String := ".db_" ++ cls ++ ".json"

/-! ## Operations -/

/-- Reading `kwargs.get('id', str(uuid.uuid4()))` for an external random source
`r`.  A supplied non-string id is outside the modelled behavior. -/
def getIdArg (kwargs : FieldMap) (r : Nat) : Option (List Char) :=
  match alGet kwargs "id" with
  | none => some (uuid4str r)
  | some (.vStr s) => some s
  | some _ => none

/-- Reading `datetime.strptime(kwargs.get(k, datetime.utcnow().strftime(FMT)), FMT)`:
a supplied string is parsed (`ValueError` → `none`); the default is the
current time formatted then parsed back; a supplied non-string raises
(`TypeError` → `none`). -/
def getDtArg (kwargs : FieldMap) (k : String) (now : DateTime) : Option DateTime :=
  match alGet kwargs k with
  | none => strptime (strftime now)
  | some (.vStr s) => strptime s
  | some _ => none

/-- The attribute initialisation in `Base.__init__`: `id`, then
`created_at`, then `updated_at`.  `Base.__init__` ignores any other
kwargs, so `extra` is empty. -/
def initEnt (cls : String) (kwargs : FieldMap) (now : DateTime) (r : Nat) :
    Option Entity := do
  let i ← getIdArg kwargs r
  let ca ← getDtArg kwargs "created_at" now
  let ua ← getDtArg kwargs "updated_at" now
  return ⟨cls, i, ca, ua, []⟩

/-- Statement `if DATA.get(s_class) is None: DATA[s_class] = \x7b\x7d`. -/
def ensureBucket (data : Data) (cls : String) : Data :=
  if (alGet data cls).isNone then alSet data cls [] else data

/-- Constructor `Base.__init__` for a concrete class named `cls`: ensure the bucket
exists, then initialise the attributes. -/
def baseInit (cls : String) (kwargs : FieldMap) (now : DateTime) (r : Nat)
    (data : Data) : Option (Entity × Data) :=
  (initEnt cls kwargs now r).map (fun e => (e, ensureBucket data cls))

/-- Assignment `DATA[s_class][oid] = e`; `none` models the `KeyError` raised when the
bucket does not exist. -/
def dataSetEntry (data : Data) (cls : String) (oid : List Char) (e : Entity) :
    Option Data :=
  (alGet data cls).map (fun b => alSet data cls (alSet b oid e))

/-- Method `Base.save_to_file`: dump the whole bucket as id ↦ `to_json(True)`,
overwriting the backing file; `KeyError` if the bucket is missing. -/
def save_to_file (cls : String) (st : State) : Option State :=
  (alGet st.data cls).map (fun b =>
    { st with
      files := alSet st.files (dbFile cls) (b.map (fun p => (p.1, p.2.to_json true))) })

/-- Method `Base.save`: set `updated_at` to the raw current UTC time
(`datetime.utcnow()`, microseconds included), store the instance under
`self.id`, then persist the bucket. -/
def save (e : Entity) (now : DateTime) (st : State) : Option (Entity × State) := do
  let e' := { e with updated_at := now }
  let d ← dataSetEntry st.data e.cls e.id e'
  let st' ← save_to_file e.cls { st with data := d }
  return (e', st')

/-- Method `Base.remove`: delete by id if present, then persist; silent no-op
(no file write) when the id is absent. -/
def remove (e : Entity) (st : State) : Option State := do
  let b ← alGet st.data e.cls
  if (alGet b e.id).isSome then
    save_to_file e.cls { st with data := alSet st.data e.cls (alErase b e.id) }
  else
    return st

/-- Method `Base.load_from_file`: reset the bucket; stop if no backing file;
otherwise reconstruct each entry via the constructor and insert it under
the file key.  `fresh` supplies the random source for any uuid the
constructor may need. -/
def load_from_file (cls : String) (now : DateTime) (fresh : Nat → Nat)
    (st : State) : Option State :=
  let data1 := alSet st.data cls []
  match alGet st.files (dbFile cls) with
  | none => some { st with data := data1 }
  | some objs =>
    (objs.enum.foldlM
      (fun d (x : Nat × List Char × FieldMap) => do
        let p ← baseInit cls x.2.2 now (fresh x.1) d
        dataSetEntry p.2 cls x.2.1 p.1)
      data1).map (fun d => { st with data := d })

/-- Method `Base.count`: `len(DATA[cls.__name__])`; `KeyError` if no bucket. -/
def count (cls : String) (st : State) : Option Nat :=
  (alGet st.data cls).map List.length

/-- Method `Base.get`: `DATA[cls.__name__].get(id)`; outer `none` is the
`KeyError` when the bucket is missing, inner `none` the not-found. -/
def get (cls : String) (i : List Char) (st : State) : Option (Option Entity) :=
  (alGet st.data cls).map (fun b => alGet b i)

/-- The `_search` predicate inside `Base.search`:
`all(getattr(obj, k, None) == v for k, v in attributes.items())`, with
an empty attributes dict matching everything. -/
def matchesAttrs (attrs : FieldMap) (e : Entity) : Bool :=
  if attrs.isEmpty then true
  else attrs.all (fun kv => pyEq ((e.getattr kv.1).getD .vNone) kv.2)

/-- Method `Base.search`: filter the bucket's values; `KeyError` if no bucket. -/
def search (cls : String) (attrs : FieldMap) (st : State) :
    Option (List Entity) :=
  (alGet st.data cls).map (fun b => (b.map Prod.snd).filter (matchesAttrs attrs))

/-- Method `Base.all`: `cls.search()` with the default empty attributes. -/
def allObjs (cls : String) (st : State) : Option (List Entity) :=
  search cls [] st

/-! ## Further association-list lemmas -/

section AList2

variable {κ : Type} {α β : Type} [DecidableEq κ]

theorem alSet_alSet (l : List (κ × α)) (k : κ) (v v' : α) :
    alSet (alSet l k v) k v' = alSet l k v' := by
  induction l with
  | nil => simp [alSet]
  | cons hd t ih =>
    obtain ⟨k0, v0⟩ := hd
    by_cases hk : k0 = k
    · simp [alSet, hk]
    · simp [alSet, hk, ih]

theorem alGet_append_left_none (l1 l2 : List (κ × α)) (k : κ)
    (h : alGet l1 k = none) : alGet (l1 ++ l2) k = alGet l2 k := by
  induction l1 with
  | nil => rfl
  | cons hd t ih =>
    obtain ⟨k0, v0⟩ := hd
    by_cases hk : k0 = k
    · simp [alGet, hk] at h
    · simp only [alGet, if_neg hk] at h
      simpa [alGet, hk] using ih h

theorem alGet_mapVal (g : α → β) (l : List (κ × α)) (k : κ) :
    alGet (l.map (fun p => (p.1, g p.2))) k = (alGet l k).map g := by
  induction l with
  | nil => rfl
  | cons hd t ih =>
    obtain ⟨k0, v0⟩ := hd
    by_cases hk : k0 = k <;> simp [alGet, hk, ih]

theorem alGet_of_mem_nodup (l : List (κ × α)) (p : κ × α)
    (hnd : (l.map Prod.fst).Nodup) (hm : p ∈ l) : alGet l p.1 = some p.2 := by
  induction l with
  | nil => simp at hm
  | cons hd t ih =>
    obtain ⟨k0, v0⟩ := hd
    simp only [List.map_cons, List.nodup_cons] at hnd
    rcases List.mem_cons.mp hm with h' | h'
    · subst h'
      simp [alGet]
    · have hne : k0 ≠ p.1 := by
        intro hk
        exact hnd.1 (hk ▸ List.mem_map_of_mem Prod.fst h')
      simp only [alGet, if_neg hne]
      exact ih hnd.2 h'

end AList2

/-! ## Behavioral lemmas about the constructor and serialization -/

/-- Timestamps coming out of `getDtArg` are range-valid with microsecond 0. -/
theorem getDtArg_some (kwargs : FieldMap) (k : String) (now : DateTime)
    (d : DateTime) (h : getDtArg kwargs k now = some d) :
    d.valid = true ∧ d.microsecond = 0 := by
  unfold getDtArg at h
  split at h
  · exact strptime_some _ _ h
  · exact strptime_some _ _ h
  · exact absurd h (by simp)

/-- Unfolding of a successful `initEnt`. -/
theorem initEnt_some (cls : String) (kwargs : FieldMap) (now : DateTime)
    (r : Nat) (e : Entity) (h : initEnt cls kwargs now r = some e) :
    ∃ i ca ua, getIdArg kwargs r = some i ∧
      getDtArg kwargs "created_at" now = some ca ∧
      getDtArg kwargs "updated_at" now = some ua ∧
      e = ⟨cls, i, ca, ua, []⟩ := by
  unfold initEnt at h
  cases hi : getIdArg kwargs r with
  | none => rw [hi] at h; exact absurd h (by simp)
  | some i =>
    rw [hi] at h
    cases hca : getDtArg kwargs "created_at" now with
    | none => rw [hca] at h; exact absurd h (by simp)
    | some ca =>
      rw [hca] at h
      cases hua : getDtArg kwargs "updated_at" now with
      | none => rw [hua] at h; exact absurd h (by simp)
      | some ua =>
        rw [hua] at h
        simp only [Option.bind_eq_bind, Option.some_bind, Option.pure_def,
          Option.some.injEq] at h
        exact ⟨i, ca, ua, rfl, rfl, rfl, h.symm⟩

/-- The shape of `to_json(True)`: the three base attributes rendered,
followed by the rendered extra attributes. -/
theorem to_json_true_eq (e : Entity) :
    e.to_json true =
      ("id", .vStr e.id) :: ("created_at", .vStr (strftime e.created_at))
        :: ("updated_at", .vStr (strftime e.updated_at))
        :: e.extra.map (fun kv => (kv.1, renderValue kv.2)) := by
  simp [Entity.to_json, Entity.dict, renderValue]

/-- Reconstructing from `to_json(True)` of an entity with valid timestamps:
the id is kept verbatim and the timestamps come back truncated. -/
theorem initEnt_to_json (cls : String) (e : Entity) (now : DateTime) (r : Nat)
    (hca : e.created_at.valid = true) (hua : e.updated_at.valid = true) :
    initEnt cls (e.to_json true) now r =
      some ⟨cls, e.id, e.created_at.trunc, e.updated_at.trunc, []⟩ := by
  rw [initEnt, to_json_true_eq]
  have hid : getIdArg (("id", Value.vStr e.id) :: ("created_at", Value.vStr (strftime e.created_at))
        :: ("updated_at", Value.vStr (strftime e.updated_at))
        :: e.extra.map (fun kv => (kv.1, renderValue kv.2))) r = some e.id := by
    simp [getIdArg, alGet]
  have hca' : getDtArg (("id", Value.vStr e.id) :: ("created_at", Value.vStr (strftime e.created_at))
        :: ("updated_at", Value.vStr (strftime e.updated_at))
        :: e.extra.map (fun kv => (kv.1, renderValue kv.2))) "created_at" now
      = some e.created_at.trunc := by
    simp only [getDtArg, alGet, reduceIte]
    exact strptime_strftime _ hca
  have hua' : getDtArg (("id", Value.vStr e.id) :: ("created_at", Value.vStr (strftime e.created_at))
        :: ("updated_at", Value.vStr (strftime e.updated_at))
        :: e.extra.map (fun kv => (kv.1, renderValue kv.2))) "updated_at" now
      = some e.updated_at.trunc := by
    simp only [getDtArg, alGet, reduceIte]
    exact strptime_strftime _ hua
  rw [hid, hca', hua']
  rfl

/-! ## What `load_from_file` rebuilds from a file written by `save_to_file` -/

/-- The entity `cls(**obj.to_json(True))` reconstructs from a saved one:
id verbatim, timestamps truncated to the format, subclass attributes
dropped (`Base.__init__` ignores extra kwargs). -/
def reconEnt (cls : String) (e : Entity) : Entity :=
  ⟨cls, e.id, e.created_at.trunc, e.updated_at.trunc, []⟩

/-- Image of a whole saved bucket under reconstruction. -/
def reconList (cls : String) (b : Bucket) : Bucket :=
  b.map (fun p => (p.1, reconEnt cls p.2))

theorem alSet_self {κ α : Type} [DecidableEq κ] (l : List (κ × α)) (k : κ)
    (v : α) (h : alGet l k = some v) : alSet l k v = l := by
  induction l with
  | nil => simp [alGet] at h
  | cons hd t ih =>
    obtain ⟨k0, v0⟩ := hd
    by_cases hk : k0 = k
    · subst hk
      have hv : v0 = v := by simpa [alGet] using h
      subst hv
      simp [alSet]
    · simp only [alGet, if_neg hk] at h
      simp [alSet, hk, ih h]

/-- The loading fold over a file that `save_to_file` wrote for bucket `b`:
starting from registry `d` whose `cls` bucket is `cur`, it succeeds and
appends the reconstructions of `b` to `cur`. -/
theorem loadFold_saved (cls : String) (now : DateTime) (fresh : Nat → Nat)
    (b : Bucket)
    (hval : ∀ p ∈ b, p.2.created_at.valid = true ∧ p.2.updated_at.valid = true)
    (hnd : (b.map Prod.fst).Nodup) :
    ∀ (k : Nat) (d : Data) (cur : Bucket),
      alGet d cls = some cur →
      (∀ p ∈ b, alGet cur p.1 = none) →
      ((b.map (fun p => (p.1, p.2.to_json true))).enumFrom k).foldlM
        (fun d (x : Nat × List Char × FieldMap) => do
          let p ← baseInit cls x.2.2 now (fresh x.1) d
          dataSetEntry p.2 cls x.2.1 p.1) d
        = some (alSet d cls (cur ++ reconList cls b)) := by
  induction b with
  | nil =>
    intro k d cur hd _
    simp [reconList, alSet_self d cls cur hd]
  | cons hd0 rest ih =>
    obtain ⟨oid, e⟩ := hd0
    intro k d cur hd hfresh
    simp only [List.map_cons, List.enumFrom, List.foldlM_cons]
    have hbi : baseInit cls (e.to_json true) now (fresh k) d
        = some (reconEnt cls e, d) := by
      have hv := hval (oid, e) (List.mem_cons_self _ _)
      rw [baseInit, initEnt_to_json cls e now (fresh k) hv.1 hv.2]
      simp [ensureBucket, hd, reconEnt]
    rw [hbi]
    have hcurfresh : alGet cur oid = none := hfresh (oid, e) (List.mem_cons_self _ _)
    have hds : dataSetEntry d cls oid (reconEnt cls e)
        = some (alSet d cls (cur ++ [(oid, reconEnt cls e)])) := by
      rw [dataSetEntry, hd]
      simp [alSet_fresh cur oid _ hcurfresh]
    simp only [Option.bind_eq_bind, Option.some_bind]
    rw [hds]
    simp only [Option.some_bind]
    have hnd' : (rest.map Prod.fst).Nodup := by
      simp only [List.map_cons, List.nodup_cons] at hnd
      exact hnd.2
    have hoidnotin : oid ∉ rest.map Prod.fst := by
      simp only [List.map_cons, List.nodup_cons] at hnd
      exact hnd.1
    have ihres := ih (fun p hp => hval p (List.mem_cons_of_mem _ hp)) hnd'
      (k + 1) (alSet d cls (cur ++ [(oid, reconEnt cls e)]))
      (cur ++ [(oid, reconEnt cls e)])
      (alGet_alSet_self _ _ _)
      (by
        intro p hp
        have h1 : alGet cur p.1 = none := hfresh p (List.mem_cons_of_mem _ hp)
        rw [alGet_append_left_none _ _ _ h1]
        have : oid ≠ p.1 := by
          intro hk
          exact hoidnotin (hk ▸ List.mem_map_of_mem Prod.fst hp)
        simp [alGet, this])
    simp only [Option.bind_eq_bind] at ihres
    rw [ihres, alSet_alSet]
    simp [reconList]

/-- Loading via `load_from_file` a file written by `save_to_file` for bucket `b`:
it succeeds and the `cls` bucket becomes exactly the reconstruction of
`b`; the file system is untouched. -/
theorem load_saved_file (cls : String) (now : DateTime) (fresh : Nat → Nat)
    (b : Bucket) (st2 : State)
    (hval : ∀ p ∈ b, p.2.created_at.valid = true ∧ p.2.updated_at.valid = true)
    (hnd : (b.map Prod.fst).Nodup)
    (hfile : alGet st2.files (dbFile cls)
      = some (b.map (fun p => (p.1, p.2.to_json true)))) :
    load_from_file cls now fresh st2 =
      some ⟨alSet st2.data cls (reconList cls b), st2.files⟩ := by
  have h := loadFold_saved cls now fresh b hval hnd 0
    (alSet st2.data cls []) [] (alGet_alSet_self _ _ _) (by intro p _; rfl)
  simp only [load_from_file, hfile, List.enum]
  simp only [Option.bind_eq_bind] at h ⊢
  rw [h]
  simp [alSet_alSet]

/-- A successful load step chain keeps the `cls` bucket present: every
step ends by assigning into `DATA[cls]`. -/
theorem loadFold_keeps_bucket (cls : String) (now : DateTime)
    (fresh : Nat → Nat) :
    ∀ (objs : List (List Char × FieldMap)) (k : Nat) (d d' : Data),
      (alGet d cls).isSome = true →
      (objs.enumFrom k).foldlM
        (fun d (x : Nat × List Char × FieldMap) => do
          let p ← baseInit cls x.2.2 now (fresh x.1) d
          dataSetEntry p.2 cls x.2.1 p.1) d = some d' →
      (alGet d' cls).isSome = true := by
  intro objs
  induction objs with
  | nil =>
    intro k d d' hsome h
    simp only [List.enumFrom, List.foldlM_nil, Option.pure_def,
      Option.some.injEq] at h
    exact h ▸ hsome
  | cons hd0 rest ih =>
    obtain ⟨oid, m⟩ := hd0
    intro k d d' hsome h
    simp only [List.enumFrom, List.foldlM_cons, Option.bind_eq_bind,
      Option.bind_eq_some] at h
    obtain ⟨d1, ⟨p, hbi, hset⟩, hrest⟩ := h
    have hd1 : (alGet d1 cls).isSome = true := by
      unfold dataSetEntry at hset
      cases hb : alGet p.2 cls with
      | none => rw [hb] at hset; exact absurd hset (by simp)
      | some b =>
        rw [hb] at hset
        simp only [Option.map_some', Option.some.injEq] at hset
        rw [← hset, alGet_alSet_self]
        rfl
    exact ih (k + 1) d1 d' hd1 hrest

/-! ## uuid and search lemmas -/

theorem isHexChar_hexChar (k : Nat) (h : k < 16) :
    isHexChar (hexChar k) = true := by
  interval_cases k <;> rfl

theorem isHexChar_uuidHex (x i : Nat) : isHexChar (uuidHex x i) = true :=
  isHexChar_hexChar _ (Nat.mod_lt _ (by norm_num))

theorem uuid4str_length (r : Nat) : (uuid4str r).length = 36 := rfl

theorem uuid4str_uuidFormat (r : Nat) : UuidFormat (uuid4str r) := by
  refine ⟨[uuidHex (uuid4int r) 0, uuidHex (uuid4int r) 1, uuidHex (uuid4int r) 2,
      uuidHex (uuid4int r) 3, uuidHex (uuid4int r) 4, uuidHex (uuid4int r) 5,
      uuidHex (uuid4int r) 6, uuidHex (uuid4int r) 7],
    [uuidHex (uuid4int r) 8, uuidHex (uuid4int r) 9, uuidHex (uuid4int r) 10,
      uuidHex (uuid4int r) 11],
    [uuidHex (uuid4int r) 12, uuidHex (uuid4int r) 13, uuidHex (uuid4int r) 14,
      uuidHex (uuid4int r) 15],
    [uuidHex (uuid4int r) 16, uuidHex (uuid4int r) 17, uuidHex (uuid4int r) 18,
      uuidHex (uuid4int r) 19],
    [uuidHex (uuid4int r) 20, uuidHex (uuid4int r) 21, uuidHex (uuid4int r) 22,
      uuidHex (uuid4int r) 23, uuidHex (uuid4int r) 24, uuidHex (uuid4int r) 25,
      uuidHex (uuid4int r) 26, uuidHex (uuid4int r) 27, uuidHex (uuid4int r) 28,
      uuidHex (uuid4int r) 29, uuidHex (uuid4int r) 30, uuidHex (uuid4int r) 31],
    rfl, rfl, rfl, rfl, rfl, ?_, rfl⟩
  simp [isHexChar_uuidHex]

/-- The `_search` predicate is exact per-pair equality of
`getattr(obj, k, None)` against the expected value (vacuously true when
`attributes` is empty). -/
theorem matchesAttrs_iff (attrs : FieldMap) (e : Entity) :
    matchesAttrs attrs e = true ↔
      ∀ kv ∈ attrs, (e.getattr kv.1).getD .vNone = kv.2 := by
  cases attrs with
  | nil => simp [matchesAttrs]
  | cons hd t =>
    simp [matchesAttrs, pyEq, List.all_eq_true]

/-! ## Concrete fixtures for closed instances -/

/-- A whole-second valid timestamp. -/
def dt1 : DateTime := ⟨2025, 3, 15, 10, 20, 30, 0⟩

/-- A valid timestamp with sub-second precision (as `datetime.utcnow()`
generally returns). -/
def dtMicro : DateTime := ⟨2025, 3, 15, 10, 20, 30, 123456⟩

/-- A concrete entity of type `User` with id `"u1"`. -/
def entU1 : Entity := ⟨"User", ['u', '1'], dt1, dt1, []⟩

/-! # Claims -/

/-- C4: `Base.__eq__` returns true iff the two entities have the same
concrete type and the same id; timestamps and extra fields do not
participate, and entities of different concrete types are never equal. -/
theorem C4_equals_iff_same_type_and_id :
    (∀ a b : Entity, Entity.eq a b = true ↔ a.cls = b.cls ∧ a.id = b.id) ∧
    (∀ (c : String) (i : List Char) (ca ua ca' ua' : DateTime)
      (ex ex' : FieldMap),
      Entity.eq ⟨c, i, ca, ua, ex⟩ ⟨c, i, ca', ua', ex'⟩ = true) ∧
    (∀ a b : Entity, a.cls ≠ b.cls → Entity.eq a b = false) := by
  refine ⟨?_, ?_, ?_⟩
  · intro a b
    simp [Entity.eq]
  · intro c i ca ua ca' ua' ex ex'
    simp [Entity.eq]
  · intro a b h
    simp [Entity.eq, h]

/-- C4 witness: two same-id entities of different concrete types are
unequal. -/
theorem C4_witness :
    Entity.eq ⟨"User", ['u', '1'], dt1, dt1, []⟩
      ⟨"UserSession", ['u', '1'], dtMicro, dtMicro, [("x", .vInt 3)]⟩
      = false :=
  C4_equals_iff_same_type_and_id.2.2 _ _ (by decide)

/-- C7: `remove()` on an entity whose id is not in its type's registry
bucket returns with the whole state unchanged: the bucket is intact, no
file is rewritten, and no error is raised. -/
theorem C7_remove_absent_noop (e : Entity) (st : State) (b : Bucket)
    (hb : alGet st.data e.cls = some b) (hid : alGet b e.id = none) :
    remove e st = some st := by
  simp [remove, hb, hid]

/-- C7 witness: removing a never-saved id from an empty `User` bucket. -/
theorem C7_witness :
    remove entU1 ⟨[("User", [])], []⟩ = some ⟨[("User", [])], []⟩ :=
  C7_remove_absent_noop entU1 ⟨[("User", [])], []⟩ [] rfl rfl

/-- C8: `load_from_file()` with no backing file is not an error: the
bucket is reset to empty, `count()` then returns 0, and the file system
is untouched. -/
theorem C8_load_no_file (cls : String) (now : DateTime) (fresh : Nat → Nat)
    (st : State) (h : alGet st.files (dbFile cls) = none) :
    ∃ st' : State, load_from_file cls now fresh st = some st' ∧
      alGet st'.data cls = some [] ∧ count cls st' = some 0 ∧
      st'.files = st.files := by
  refine ⟨⟨alSet st.data cls [], st.files⟩, ?_, alGet_alSet_self _ _ _, ?_, rfl⟩
  · simp [load_from_file, h]
  · simp [count, alGet_alSet_self]

/-- C8 witness: loading a brand-new type from an empty file system. -/
theorem C8_witness :
    ∃ st' : State, load_from_file "User" dt1 (fun _ => 0) ⟨[], []⟩ = some st' ∧
      alGet st'.data "User" = some [] ∧ count "User" st' = some 0 ∧
      st'.files = ([] : List (String × JsonFile)) :=
  C8_load_no_file "User" dt1 (fun _ => 0) ⟨[], []⟩ rfl

/-- C9: while no entity of a type has been constructed and no load has
happened, the registry has no bucket for it, and `count`, `get`,
`search`, `all` raise `KeyError` (modelled by `none`) rather than
returning 0 / a not-found value / an empty list; the bucket appears on
the first construction or on a load. -/
theorem C9_missing_bucket_raises (cls : String) (st : State) (i : List Char)
    (attrs : FieldMap) (h : alGet st.data cls = none) :
    count cls st = none ∧ get cls i st = none ∧ search cls attrs st = none ∧
    allObjs cls st = none ∧
    (∀ kwargs now r e d, baseInit cls kwargs now r st.data = some (e, d) →
      alGet d cls = some []) ∧
    (∀ now fresh st', load_from_file cls now fresh st = some st' →
      (alGet st'.data cls).isSome = true) := by
  refine ⟨by simp [count, h], by simp [get, h], by simp [search, h],
    by simp [allObjs, search, h], ?_, ?_⟩
  · intro kwargs now r e d hinit
    unfold baseInit at hinit
    cases hi : initEnt cls kwargs now r with
    | none => rw [hi] at hinit; exact absurd hinit (by simp)
    | some e0 =>
      rw [hi] at hinit
      simp only [Option.map_some', Option.some.injEq, Prod.mk.injEq] at hinit
      rw [← hinit.2]
      simp only [ensureBucket, h, Option.isNone_none, if_true]
      exact alGet_alSet_self _ _ _
  · intro now fresh st' hload
    cases hf : alGet st.files (dbFile cls) with
    | none =>
      simp only [load_from_file, hf, Option.some.injEq] at hload
      rw [← hload]
      simp [alGet_alSet_self]
    | some objs =>
      simp only [load_from_file, hf, Option.map_eq_some'] at hload
      obtain ⟨dfin, hfold, hst⟩ := hload
      have hkeep := loadFold_keeps_bucket cls now fresh objs 0
        (alSet st.data cls []) dfin
        (by rw [alGet_alSet_self]; rfl) hfold
      rw [← hst]
      exact hkeep

/-- C5: `search(attributes)` returns exactly the bucket entities whose
fields match every requested key/value pair by equality; an entity
missing a requested field never matches a non-null expected value;
empty attributes returns all bucket entities (in bucket order). -/
theorem C5_search_exact_match (cls : String) (st : State) (b : Bucket)
    (attrs : FieldMap) (hb : alGet st.data cls = some b) :
    ∃ res, search cls attrs st = some res ∧
      (∀ e : Entity, e ∈ res ↔ e ∈ b.map Prod.snd ∧
        ∀ kv ∈ attrs, (e.getattr kv.1).getD .vNone = kv.2) ∧
      (attrs = [] → res = b.map Prod.snd) ∧
      (∀ e ∈ b.map Prod.snd, ∀ kv ∈ attrs,
        e.getattr kv.1 = none → kv.2 ≠ .vNone → e ∉ res) := by
  refine ⟨(b.map Prod.snd).filter (matchesAttrs attrs),
    by simp [search, hb], ?_, ?_, ?_⟩
  · intro e
    rw [List.mem_filter, matchesAttrs_iff]
  · intro h
    subst h
    exact List.filter_eq_self.mpr (fun a _ => rfl)
  · intro e he kv hkv hnone hnn hmem
    rw [List.mem_filter, matchesAttrs_iff] at hmem
    have h2 := hmem.2 kv hkv
    rw [hnone] at h2
    exact hnn h2.symm

/-- C5 witness: searching a two-entity `User` bucket for `id == "u1"`. -/
theorem C5_witness :
    ∃ res, search "User"
        [("id", .vStr ['u', '1'])]
        ⟨[("User", [(['u', '1'], entU1),
                    (['u', '2'], ⟨"User", ['u', '2'], dt1, dt1, []⟩)])], []⟩
        = some res ∧
      (∀ e : Entity, e ∈ res ↔
        e ∈ [(['u', '1'], entU1),
             (['u', '2'], (⟨"User", ['u', '2'], dt1, dt1, []⟩ : Entity))].map Prod.snd ∧
        ∀ kv ∈ [("id", Value.vStr ['u', '1'])],
          (e.getattr kv.1).getD .vNone = kv.2) ∧
      ([("id", Value.vStr ['u', '1'])] = ([] : FieldMap) →
        res = [(['u', '1'], entU1),
               (['u', '2'], (⟨"User", ['u', '2'], dt1, dt1, []⟩ : Entity))].map Prod.snd) ∧
      (∀ e ∈ [(['u', '1'], entU1),
              (['u', '2'], (⟨"User", ['u', '2'], dt1, dt1, []⟩ : Entity))].map Prod.snd,
        ∀ kv ∈ [("id", Value.vStr ['u', '1'])],
          e.getattr kv.1 = none → kv.2 ≠ .vNone → e ∉ res) :=
  C5_search_exact_match "User" _ _ _ rfl

/-- C6: a supplied id is stored verbatim; with no id supplied the id is
the freshly generated uuid4 string: 36 characters in UUID format. -/
theorem C6_construct_id (cls : String) (kwargs : FieldMap) (now : DateTime)
    (r : Nat) (data : Data) (e : Entity) (d : Data)
    (h : baseInit cls kwargs now r data = some (e, d)) :
    (∀ s, alGet kwargs "id" = some (.vStr s) → e.id = s) ∧
    (alGet kwargs "id" = none →
      e.id = uuid4str r ∧ (uuid4str r).length = 36 ∧
      UuidFormat (uuid4str r)) := by
  have he : ∃ e0, initEnt cls kwargs now r = some e0 ∧ e0 = e := by
    unfold baseInit at h
    cases hi : initEnt cls kwargs now r with
    | none => rw [hi] at h; exact absurd h (by simp)
    | some e0 =>
      rw [hi] at h
      simp only [Option.map_some', Option.some.injEq, Prod.mk.injEq] at h
      exact ⟨e0, rfl, h.1⟩
  obtain ⟨e0, hi, he0⟩ := he
  obtain ⟨i, ca, ua, hid, _, _, hent⟩ := initEnt_some _ _ _ _ _ hi
  subst he0
  subst hent
  constructor
  · intro s hs
    unfold getIdArg at hid
    rw [hs] at hid
    simpa using hid.symm
  · intro hnone
    unfold getIdArg at hid
    rw [hnone] at hid
    refine ⟨by simpa using hid.symm, uuid4str_length r, uuid4str_uuidFormat r⟩

/-- C6 witness: constructing with `id="fixed-1"` keeps it verbatim. -/
theorem C6_witness :
    (⟨"User", ['f', 'i', 'x', 'e', 'd', '-', '1'], dt1, dt1, []⟩ : Entity).id
      = ['f', 'i', 'x', 'e', 'd', '-', '1'] :=
  (C6_construct_id "User" [("id", .vStr ['f', 'i', 'x', 'e', 'd', '-', '1'])]
    dt1 0 []
    ⟨"User", ['f', 'i', 'x', 'e', 'd', '-', '1'], dt1, dt1, []⟩
    [("User", [])] rfl).1 _ rfl

/-- C9 witness: the empty registry raises for `User` everywhere, and the
first construction creates the bucket. -/
theorem C9_witness :
    count "User" ⟨[], []⟩ = none ∧ get "User" ['u', '1'] ⟨[], []⟩ = none ∧
    search "User" [] ⟨[], []⟩ = none ∧ allObjs "User" ⟨[], []⟩ = none ∧
    (∀ kwargs now r e d, baseInit "User" kwargs now r ([] : Data) = some (e, d) →
      alGet d "User" = some []) ∧
    (∀ now fresh st', load_from_file "User" now fresh ⟨[], []⟩ = some st' →
      (alGet st'.data "User").isSome = true) :=
  C9_missing_bucket_raises "User" ⟨[], []⟩ ['u', '1'] [] rfl

/-- Truncation is the identity on whole-second datetimes. -/
theorem trunc_eq_self (d : DateTime) (h : d.microsecond = 0) :
    d.trunc = d := by
  cases d
  simp only [DateTime.trunc]
  simp_all

/-- Shape of `to_json` of an entity without extra attributes, for either flag:
none of the three base attribute names is private. -/
theorem to_json_noextra (e : Entity) (he : e.extra = []) (fs : Bool) :
    e.to_json fs = [("id", .vStr e.id),
      ("created_at", .vStr (strftime e.created_at)),
      ("updated_at", .vStr (strftime e.updated_at))] := by
  obtain ⟨c, i, ca, ua, ex⟩ := e
  simp only at he
  subst he
  cases fs <;> rfl

/-- Full description of a successful `save`. -/
theorem save_some (e : Entity) (now : DateTime) (st : State) (e' : Entity)
    (st' : State) (h : save e now st = some (e', st')) :
    e' = { e with updated_at := now } ∧
    ∃ b, alGet st.data e.cls = some b ∧
      st'.data = alSet st.data e.cls (alSet b e.id { e with updated_at := now }) ∧
      st'.files = alSet st.files (dbFile e.cls)
        ((alSet b e.id { e with updated_at := now }).map
          (fun p => (p.1, p.2.to_json true))) := by
  unfold save at h
  simp only [Option.bind_eq_bind, Option.bind_eq_some, Option.pure_def,
    Option.some.injEq] at h
  obtain ⟨d, hd, stmid, hsf, hpair⟩ := h
  unfold dataSetEntry at hd
  cases hb : alGet st.data e.cls with
  | none => rw [hb] at hd; exact absurd hd (by simp)
  | some b =>
    rw [hb] at hd
    simp only [Option.map_some', Option.some.injEq] at hd
    subst hd
    unfold save_to_file at hsf
    rw [show alGet (alSet st.data e.cls
        (alSet b e.id { e with updated_at := now })) e.cls
        = some (alSet b e.id { e with updated_at := now })
      from alGet_alSet_self _ _ _] at hsf
    simp only [Option.map_some', Option.some.injEq] at hsf
    simp only [Prod.mk.injEq] at hpair
    obtain ⟨h1, h2⟩ := hpair
    subst h1
    subst h2
    refine ⟨rfl, b, rfl, ?_, ?_⟩ <;> rw [← hsf]

/-- C3 counterexample: `save()` stores the raw `datetime.utcnow()` in
`updated_at`; at a current time carrying microsecond 123456 the stored
`updated_at` is not expressible at the whole-second precision of
`TIMESTAMP_FORMAT`, refuting the claim for the state right after
`Save()`. -/
theorem C3_counterexample :
    (save entU1 dtMicro ⟨[("User", [])], []⟩).map
      (fun p => decide (p.1.updated_at.trunc = p.1.updated_at))
      = some false := by
  rfl

/-- C3 amended: `created_at` and `updated_at` are range-valid
whole-second timestamps after every construction (hence also after a
load, which constructs); `save()` however sets `updated_at` to the raw
current UTC time, preserving `created_at` — sub-second precision is
dropped only when the value is rendered into the fixed format. -/
theorem C3_amended_timestamps :
    (∀ cls kwargs now r e, initEnt cls kwargs now r = some e →
      e.created_at.valid = true ∧ e.created_at.microsecond = 0 ∧
      e.updated_at.valid = true ∧ e.updated_at.microsecond = 0) ∧
    (∀ e now st e' st', save e now st = some (e', st') →
      e'.updated_at = now ∧ e'.created_at = e.created_at) := by
  constructor
  · intro cls kwargs now r e hi
    obtain ⟨i, ca, ua, _, hca, hua, hent⟩ := initEnt_some _ _ _ _ _ hi
    obtain ⟨hcav, hcam⟩ := getDtArg_some _ _ _ _ hca
    obtain ⟨huav, huam⟩ := getDtArg_some _ _ _ _ hua
    subst hent
    exact ⟨hcav, hcam, huav, huam⟩
  · intro e now st e' st' hs
    obtain ⟨he', _⟩ := save_some _ _ _ _ _ hs
    subst he'
    exact ⟨rfl, rfl⟩

/-- C3 amended witness: a concrete construction has whole-second valid
timestamps, and a concrete save writes the raw current time. -/
theorem C3_amended_witness :
    (dt1.valid = true ∧ dt1.microsecond = 0 ∧
      dt1.valid = true ∧ dt1.microsecond = 0) ∧
    (∀ e' st',
      save entU1 dtMicro ⟨[("User", [])], []⟩ = some (e', st') →
      e'.updated_at = dtMicro ∧ e'.created_at = dt1) := by
  constructor
  · exact C3_amended_timestamps.1 "User" [] dt1 0
      ⟨"User", uuid4str 0, dt1, dt1, []⟩ rfl
  · intro e' st' hs
    have := C3_amended_timestamps.2 entU1 dtMicro ⟨[("User", [])], []⟩ e' st' hs
    exact this

/-- C2: Construct, then `to_json`, then Construct on the result yields an
`Equals`-equal entity whose `created_at` and `updated_at` equal the
original's truncated to the precision of the fixed format (constructed
timestamps are already whole-second, so truncation is the identity
here). -/
theorem C2_construct_tojson_roundtrip (cls : String) (kwargs : FieldMap)
    (now now2 : DateTime) (r r2 : Nat) (data data2 : Data) (e e2 : Entity)
    (d d2 : Data) (fs : Bool)
    (h1 : baseInit cls kwargs now r data = some (e, d))
    (h2 : baseInit cls (e.to_json fs) now2 r2 data2 = some (e2, d2)) :
    Entity.eq e2 e = true ∧ e2.created_at = e.created_at.trunc ∧
      e2.updated_at = e.updated_at.trunc := by
  have hinit1 : initEnt cls kwargs now r = some e := by
    unfold baseInit at h1
    cases hi : initEnt cls kwargs now r with
    | none => rw [hi] at h1; exact absurd h1 (by simp)
    | some e0 =>
      rw [hi] at h1
      simp only [Option.map_some', Option.some.injEq, Prod.mk.injEq] at h1
      rw [h1.1]
  obtain ⟨i, ca, ua, hid, hca, hua, hent⟩ := initEnt_some _ _ _ _ _ hinit1
  obtain ⟨hcav, hcam⟩ := getDtArg_some _ _ _ _ hca
  obtain ⟨huav, huam⟩ := getDtArg_some _ _ _ _ hua
  have hinit2 : initEnt cls (e.to_json fs) now2 r2 = some e2 := by
    unfold baseInit at h2
    cases hi : initEnt cls (e.to_json fs) now2 r2 with
    | none => rw [hi] at h2; exact absurd h2 (by simp)
    | some e0 =>
      rw [hi] at h2
      simp only [Option.map_some', Option.some.injEq, Prod.mk.injEq] at h2
      rw [h2.1]
  rw [to_json_noextra e (by rw [hent]) fs] at hinit2
  have hjson : initEnt cls [("id", .vStr e.id),
      ("created_at", .vStr (strftime e.created_at)),
      ("updated_at", .vStr (strftime e.updated_at))] now2 r2
      = some ⟨cls, e.id, e.created_at.trunc, e.updated_at.trunc, []⟩ := by
    unfold initEnt
    rw [show getIdArg [("id", Value.vStr e.id),
        ("created_at", .vStr (strftime e.created_at)),
        ("updated_at", .vStr (strftime e.updated_at))] r2 = some e.id
      from by simp [getIdArg, alGet]]
    rw [show getDtArg [("id", Value.vStr e.id),
        ("created_at", .vStr (strftime e.created_at)),
        ("updated_at", .vStr (strftime e.updated_at))] "created_at" now2
        = some e.created_at.trunc
      from by
        simp only [getDtArg, alGet, reduceIte]
        exact strptime_strftime _ (by rw [hent]; exact hcav)]
    rw [show getDtArg [("id", Value.vStr e.id),
        ("created_at", .vStr (strftime e.created_at)),
        ("updated_at", .vStr (strftime e.updated_at))] "updated_at" now2
        = some e.updated_at.trunc
      from by
        simp only [getDtArg, alGet, reduceIte]
        exact strptime_strftime _ (by rw [hent]; exact huav)]
    rfl
  rw [hjson] at hinit2
  cases hinit2
  refine ⟨?_, rfl, rfl⟩
  simp [Entity.eq, hent]

/-- C2 witness: round-tripping a concretely constructed `User`. -/
theorem C2_witness :
    Entity.eq
      ⟨"User", ['u', '1'], dt1, dt1, []⟩
      ⟨"User", ['u', '1'], dt1, dt1, []⟩ = true ∧
    (⟨"User", ['u', '1'], dt1, dt1, []⟩ : Entity).created_at
      = (⟨"User", ['u', '1'], dt1, dt1, []⟩ : Entity).created_at.trunc ∧
    (⟨"User", ['u', '1'], dt1, dt1, []⟩ : Entity).updated_at
      = (⟨"User", ['u', '1'], dt1, dt1, []⟩ : Entity).updated_at.trunc :=
  C2_construct_tojson_roundtrip "User" [("id", .vStr ['u', '1'])]
    dt1 dt1 0 0 [] [] ⟨"User", ['u', '1'], dt1, dt1, []⟩
    ⟨"User", ['u', '1'], dt1, dt1, []⟩ [("User", [])] [("User", [])] true
    rfl rfl

/-- C1: for every bucket of saved entities (entities of the bucket's
type with range-valid timestamps and distinct ids, as `Save()` builds),
`save_to_file` followed by `load_from_file` on a fresh registry rebuilds
a bucket containing, for every saved id, an entity `Equals`-equal to the
original saved under that id. -/
theorem C1_save_load_equals (cls : String) (st st1 st2 : State) (b : Bucket)
    (now : DateTime) (fresh : Nat → Nat)
    (hb : alGet st.data cls = some b)
    (hcls : ∀ p ∈ b, p.2.cls = cls)
    (hval : ∀ p ∈ b, p.2.created_at.valid = true ∧ p.2.updated_at.valid = true)
    (hnd : (b.map Prod.fst).Nodup)
    (hsave : save_to_file cls st = some st1)
    (hfiles : st2.files = st1.files) :
    ∃ st3 b', load_from_file cls now fresh st2 = some st3 ∧
      alGet st3.data cls = some b' ∧
      ∀ p ∈ b, ∃ e', alGet b' p.1 = some e' ∧ Entity.eq e' p.2 = true := by
  have hfile : alGet st2.files (dbFile cls)
      = some (b.map (fun p => (p.1, p.2.to_json true))) := by
    unfold save_to_file at hsave
    rw [hb] at hsave
    simp only [Option.map_some', Option.some.injEq] at hsave
    rw [hfiles, ← hsave]
    exact alGet_alSet_self _ _ _
  refine ⟨⟨alSet st2.data cls (reconList cls b), st2.files⟩, reconList cls b,
    load_saved_file cls now fresh b st2 hval hnd hfile,
    alGet_alSet_self _ _ _, ?_⟩
  intro p hp
  refine ⟨reconEnt cls p.2, ?_, ?_⟩
  · show alGet (b.map (fun q => (q.1, reconEnt cls q.2))) p.1
      = some (reconEnt cls p.2)
    rw [alGet_mapVal (reconEnt cls) b p.1, alGet_of_mem_nodup b p hnd hp]
    rfl
  · simp [Entity.eq, reconEnt, hcls p hp]

/-- C1 witness: one saved `User`, saved to file and reloaded into a fresh
registry, is found under its id and is `Equals`-equal to the original. -/
theorem C1_witness :
    ∃ st3 b', load_from_file "User" dtMicro (fun _ => 0)
        ⟨[], [(".db_User.json", [(['u', '1'], entU1.to_json true)])]⟩
        = some st3 ∧
      alGet st3.data "User" = some b' ∧
      ∀ p ∈ [(['u', '1'], entU1)], ∃ e',
        alGet b' p.1 = some e' ∧ Entity.eq e' p.2 = true :=
  C1_save_load_equals "User"
    ⟨[("User", [(['u', '1'], entU1)])], []⟩
    ⟨[("User", [(['u', '1'], entU1)])],
      [(".db_User.json", [(['u', '1'], entU1.to_json true)])]⟩
    ⟨[], [(".db_User.json", [(['u', '1'], entU1.to_json true)])]⟩
    [(['u', '1'], entU1)] dtMicro (fun _ => 0)
    rfl
    (by intro p hp; simp at hp; subst hp; rfl)
    (by intro p hp; simp at hp; subst hp; exact ⟨rfl, rfl⟩)
    (by simp)
    rfl
    rfl

/-- C10: the bucket invariant "every key maps to an entity whose `id`
equals that key" is preserved by `save`, by `remove`, and by
`load_from_file` on a file produced by `save_to_file` from a bucket
satisfying the invariant. -/
theorem C10_key_id_invariant :
    (∀ (e : Entity) now st e' st' b, alGet st.data e.cls = some b →
      (∀ p ∈ b, p.2.id = p.1) → save e now st = some (e', st') →
      ∃ b', alGet st'.data e.cls = some b' ∧ ∀ p ∈ b', p.2.id = p.1) ∧
    (∀ (e : Entity) st st' b, alGet st.data e.cls = some b →
      (∀ p ∈ b, p.2.id = p.1) → remove e st = some st' →
      ∃ b', alGet st'.data e.cls = some b' ∧ ∀ p ∈ b', p.2.id = p.1) ∧
    (∀ cls now fresh (b : Bucket) (st2 st3 : State),
      (∀ p ∈ b, p.2.id = p.1) →
      (∀ p ∈ b, p.2.created_at.valid = true ∧ p.2.updated_at.valid = true) →
      (b.map Prod.fst).Nodup →
      alGet st2.files (dbFile cls)
        = some (b.map (fun p => (p.1, p.2.to_json true))) →
      load_from_file cls now fresh st2 = some st3 →
      ∃ b', alGet st3.data cls = some b' ∧ ∀ p ∈ b', p.2.id = p.1) := by
  refine ⟨?_, ?_, ?_⟩
  · intro e now st e' st' b hb hinv hs
    obtain ⟨_, b0, hb0, hdata, _⟩ := save_some _ _ _ _ _ hs
    have hbb : b0 = b := by
      rw [hb] at hb0
      exact (Option.some.injEq _ _ ▸ hb0).symm
    subst hbb
    refine ⟨alSet b0 e.id { e with updated_at := now }, ?_, ?_⟩
    · rw [hdata]
      exact alGet_alSet_self _ _ _
    · intro p hp
      rcases mem_alSet _ _ _ _ hp with h' | h'
      · exact hinv p h'
      · rw [h']
  · intro e st st' b hb hinv hr
    unfold remove at hr
    rw [hb] at hr
    simp only [Option.bind_eq_bind, Option.some_bind] at hr
    by_cases hpresent : (alGet b e.id).isSome = true
    · rw [if_pos hpresent] at hr
      unfold save_to_file at hr
      rw [show alGet (alSet st.data e.cls (alErase b e.id)) e.cls
          = some (alErase b e.id) from alGet_alSet_self _ _ _] at hr
      simp only [Option.map_some', Option.some.injEq] at hr
      refine ⟨alErase b e.id, ?_, ?_⟩
      · rw [← hr]
        exact alGet_alSet_self _ _ _
      · intro p hp
        exact hinv p (mem_alErase _ _ _ hp)
    · rw [if_neg hpresent] at hr
      simp only [Option.pure_def, Option.some.injEq] at hr
      refine ⟨b, ?_, hinv⟩
      rw [← hr]
      exact hb
  · intro cls now fresh b st2 st3 hinv hval hnd hfile hload
    rw [load_saved_file cls now fresh b st2 hval hnd hfile] at hload
    simp only [Option.some.injEq] at hload
    refine ⟨reconList cls b, ?_, ?_⟩
    · rw [← hload]
      exact alGet_alSet_self _ _ _
    · intro p hp
      unfold reconList at hp
      obtain ⟨q, hq, hpq⟩ := List.mem_map.mp hp
      rw [← hpq]
      exact hinv q hq

/-- C10 witness: saving a `User` into a state holding an
invariant-respecting bucket preserves the invariant. -/
theorem C10_witness :
    ∃ b', alGet
        ([("User", [(['u', '1'],
          ({ entU1 with updated_at := dtMicro } : Entity))])] : Data) "User"
        = some b' ∧ ∀ p ∈ b', p.2.id = p.1 :=
  C10_key_id_invariant.1 entU1 dtMicro ⟨[("User", [])], []⟩
    { entU1 with updated_at := dtMicro }
    ⟨[("User", [(['u', '1'], { entU1 with updated_at := dtMicro })])],
     [(".db_User.json",
       [(['u', '1'],
         ({ entU1 with updated_at := dtMicro } : Entity).to_json true)])]⟩
    [] rfl (fun p hp => absurd hp (by simp)) (by rfl)

end BaseModel
